import Mathlib

/-!
Verification of the shell-emulator core of `emu.py`: the in-memory VFS tree,
the path resolver `resolve_path`, and the command dispatcher `run_cmd` with its
commands `ls`, `cd`, `whoami`, `rev`, `head`, `chown`, `exit`.

The Python source is shallowly embedded: Python strings become `String`,
byte strings become `List Nat`, the insertion-ordered `dict` of children
becomes an association list, in-place mutation of a node (`chown`) becomes a
functional update along the access path of child lookups, and the tuple
`(node, error)` returned by `resolve_path` becomes `Except String VNode`.
Python standard-library operations used by the source (`str.split`,
`str.strip`, `str.splitlines`, list slicing, `int(...)`, `sorted`,
`bytes.decode(errors="replace")`) are modelled by the `py`-prefixed
definitions below.
-/

namespace EmuSpec

/-! ### Models of Python string and list primitives -/

/-- Whitespace recognised by Python `str.strip()` (restricted to the ASCII
whitespace characters; Python also strips some unicode spaces). -/
def isPySpace (c : Char) : Bool :=
  c = ' ' ∨ c = '\t' ∨ c = '\n' ∨ c = '\r' ∨ c = '\x0b' ∨ c = '\x0c'

/-- Model of Python `str.strip()`. -/
def pyStrip (s : String) : String :=
  String.mk (((s.data.dropWhile isPySpace).reverse.dropWhile isPySpace).reverse)

/-- Split a character list at every occurrence of `sep`, keeping empty pieces:
the model of Python `str.split(sep)` for a one-character separator. -/
def splitChar (sep : Char) : List Char → List (List Char)
  | [] => [[]]
  | c :: rest =>
    let r := splitChar sep rest
    if c = sep then [] :: r
    else
      match r with
      | [] => [[c]]
      | h :: t => (c :: h) :: t

/-- Model of Python `str.split("/")`. -/
def pySplitSlash (s : String) : List String :=
  (splitChar '/' s.data).map String.mk

/-- Model of Python `str.startswith("/")`: true iff the first character is
the separator. -/
def startsWithSlash (s : String) : Bool :=
  s.data.head? = some '/'

/-- Helper for `pySplitlines`: accumulates the current line (reversed) and
splits at `\n`, `\r\n` and `\r`. -/
def splitlinesAux : List Char → List Char → List String
  | acc, [] => if acc.isEmpty then [] else [String.mk acc.reverse]
  | acc, '\n' :: rest => String.mk acc.reverse :: splitlinesAux [] rest
  | acc, '\r' :: '\n' :: rest => String.mk acc.reverse :: splitlinesAux [] rest
  | acc, '\r' :: rest => String.mk acc.reverse :: splitlinesAux [] rest
  | acc, c :: rest => splitlinesAux (c :: acc) rest

/-- Model of Python `str.splitlines()`: splits at line boundaries, with no
trailing empty line for a trailing newline (Python additionally treats a few
rarer control characters as boundaries; the three common ones are modelled). -/
def pySplitlines (s : String) : List String :=
  splitlinesAux [] s.data

/-- Model of the Python list slice `lst[:n]` for an `int` bound `n`:
a negative bound counts from the end (`lst[:-k]` drops the last `k`
elements, clamped at the empty list). -/
def pySlice (n : Int) (l : List String) : List String :=
  if 0 ≤ n then l.take n.toNat else l.take (l.length - (-n).toNat)

/-- Model of Python `int(string)`: optional surrounding whitespace, an
optional sign, then one or more decimal digits; anything else raises
`ValueError`, modelled as `none` (Python additionally accepts underscores
between digits and non-ASCII digits; not modelled). -/
def pyParseInt (s : String) : Option Int :=
  let t := pyStrip s
  let sd : Bool × List Char :=
    match t.data with
    | '-' :: rest => (true, rest)
    | '+' :: rest => (false, rest)
    | l => (false, l)
  if sd.2 ≠ [] ∧ sd.2.all Char.isDigit then
    let v : Nat := sd.2.foldl (fun a c => a * 10 + (c.toNat - 48)) 0
    some (if sd.1 then -(v : Int) else (v : Int))
  else none

/-- Model of the Python string reversal `s[::-1]` (code-point order). -/
def strReverse (s : String) : String :=
  String.mk s.data.reverse

/-- Model of Python `sep.join(pieces)`. -/
def joinWith (sep : String) : List String → String
  | [] => ""
  | x :: xs => xs.foldl (fun acc a => acc ++ sep ++ a) x

/-- Model of Python `bytes.decode(errors="replace")`, restricted to the
ASCII range: a byte below 128 decodes to the corresponding character, any
other byte to U+FFFD.  (Real UTF-8 multi-byte sequences are not modelled;
what matters for the source is that decoding is total and never raises,
which the `replace` error handler guarantees.) -/
def decodeReplace (bs : List Nat) : String :=
  String.mk (bs.map (fun b => if b < 128 then Char.ofNat b else '�'))

/-- Code-point lexicographic comparison on character lists: the model of
Python string `<=` as used by `sorted`. -/
def lexLe : List Char → List Char → Bool
  | [], _ => true
  | _ :: _, [] => false
  | a :: as, b :: bs =>
    if a.toNat < b.toNat then true
    else if b.toNat < a.toNat then false
    else lexLe as bs

/-- Python string `<=` (code-point lexicographic order). -/
def strLe (a b : String) : Bool :=
  lexLe a.data b.data

/-- Model of Python `sorted` on a list of strings. -/
def pySorted (l : List String) : List String :=
  List.insertionSort (fun a b => strLe a b = true) l

/-! ### The VFS data model (`class VNode`) -/

/-- A VFS node: `emu.py`'s `VNode` with fields `name`, `type` (the string
`"dir"` or `"file"`), `owner`, `mode`, `content` (bytes) and `children`
(an insertion-ordered dict from child name to node, modelled as an
association list; the dict's keys are unique). -/
inductive VNode where
  | mk : String → String → String → String → List Nat → List (String × VNode) → VNode

def VNode.name : VNode → String
  | .mk n _ _ _ _ _ => n

def VNode.type : VNode → String
  | .mk _ t _ _ _ _ => t

def VNode.owner : VNode → String
  | .mk _ _ o _ _ _ => o

def VNode.mode : VNode → String
  | .mk _ _ _ m _ _ => m

def VNode.content : VNode → List Nat
  | .mk _ _ _ _ c _ => c

def VNode.children : VNode → List (String × VNode)
  | .mk _ _ _ _ _ cs => cs

/-- First binding of a key in an association list: the model of looking a
key up in a Python dict (whose keys are unique, so the first binding is the
only one). -/
def findPair (k : String) : List (String × VNode) → Option VNode
  | [] => none
  | (k', v) :: rest => if k' = k then some v else findPair k rest

/-- Python `p in node.children` / `node.children[p]`. -/
def findChild (node : VNode) (k : String) : Option VNode :=
  findPair k node.children

/-- Walk a sequence of child names down from a node: the access path of a
node in the tree. -/
def nodeAt : VNode → List String → Option VNode
  | cur, [] => some cur
  | cur, k :: ks =>
    match findChild cur k with
    | none => none
    | some c => nodeAt c ks

/-! ### Path resolution (`split_path`, `resolve_path`) -/

/-- `emu.py`'s `split_path`: empty for a blank path, else the nonempty
pieces of the split at `/`. -/
def split_path (path : String) : List String :=
  if pyStrip path = "" then []
  else (pySplitSlash path).filter (fun p => p ≠ "")

/-- The `.`/`..` normalisation stack loop that appears (twice) in `emu.py`:
`.` is dropped, `..` pops the last pushed segment if any, every other
segment is pushed. -/
def normalizeStack (parts : List String) : List String :=
  parts.foldl
    (fun stack q =>
      if q = "." then stack
      else if q = ".." then stack.dropLast
      else stack ++ [q])
    []

/-- The cwd walk of `resolve_path` for `path in ("", ".")`, with its
`current directory broken` error.  The extra `trace` argument records the
access path of the child lookups performed (used to render Python's
in-place mutation functionally); it carries no information beyond the
source's control flow. -/
def walkCwdEx : VNode → List String → List String → Except String (List String × VNode)
  | cur, trace, [] => .ok (trace, cur)
  | cur, trace, p :: rest =>
    match findChild cur p with
    | none => .error ("current directory broken: " ++ p ++ " missing")
    | some c => walkCwdEx c (trace ++ [p]) rest

/-- The fallback walk of `resolve_path`'s relative-`..` branch: traverses a
fully normalised segment list from the root, with the error message built
from the whole normalised list. -/
def walkPartsEx (msg : String) : VNode → List String → List String → Except String (List String × VNode)
  | cur, trace, [] => .ok (trace, cur)
  | cur, trace, q :: rest =>
    match findChild cur q with
    | none => .error msg
    | some c => walkPartsEx msg c (trace ++ [q]) rest

/-- The main `for p in parts` loop of `resolve_path`.  A `.` segment is
skipped.  A `..` segment on a relative path abandons the walk, renormalises
`cwd_parts + split_path(path)` with the stack loop and re-traverses from the
root.  On an absolute path the `..` branch of the source assigns to dead
variables and falls through, so `..` is looked up as a literal child name.
Any other segment is looked up in the current node's children (a `File` has
an empty children dict, so descending into any segment under it fails with
the same `path not found` error as a missing name). -/
def resolveLoopEx (root : VNode) (cwd_parts : List String) (path : String) (isAbs : Bool) :
    VNode → List String → List String → Except String (List String × VNode)
  | cur, trace, [] => .ok (trace, cur)
  | cur, trace, p :: rest =>
    if p = "." then
      resolveLoopEx root cwd_parts path isAbs cur trace rest
    else if p = ".." ∧ isAbs = false then
      let stack2 := normalizeStack (cwd_parts ++ split_path path)
      walkPartsEx ("path not found: /" ++ joinWith "/" stack2) root [] stack2
    else
      match findChild cur p with
      | none => .error ("path not found: " ++ path)
      | some c => resolveLoopEx root cwd_parts path isAbs c (trace ++ [p]) rest

/-- `emu.py`'s `resolve_path`, instrumented with the access path of the
returned node (`Prod.fst` of the result); `resolve_path` below projects it
away. -/
def resolveEx (root : VNode) (cwd_parts : List String) (path : String) :
    Except String (List String × VNode) :=
  if path = "" ∨ path = "." then
    walkCwdEx root [] cwd_parts
  else if startsWithSlash path then
    resolveLoopEx root cwd_parts path true root [] (split_path path)
  else
    resolveLoopEx root cwd_parts path false root [] (cwd_parts ++ split_path path)

/-- `emu.py`'s `resolve_path`: the Python pair `(node, error)` rendered as
`Except String VNode`. -/
def resolve_path (root : VNode) (cwd_parts : List String) (path : String) :
    Except String VNode :=
  (resolveEx root cwd_parts path).map Prod.snd

/-! ### Commands (`Emulator.cmd_*`) -/

/-- `VNode.to_repr` of `emu.py` (only reachable through `list_dir` on a node
that is neither a file nor a directory, which the builder never produces). -/
def to_repr (v : VNode) : String :=
  if v.type = "dir" then
    "<dir " ++ v.name ++ " owner=" ++ v.owner ++ " entries=" ++ toString v.children.length ++ ">"
  else
    "<file " ++ v.name ++ " owner=" ++ v.owner ++ " size=" ++ toString v.content.length ++ "B>"

/-- `emu.py`'s `list_dir`: for a directory, its child names sorted
(Python `sorted`). -/
def list_dir (node : VNode) : List String :=
  if node.type ≠ "dir" then [to_repr node]
  else pySorted (node.children.map Prod.fst)

/-- One output line of `ls` for child `n`: the f-string
`"{n}\t{child.type}\towner:{child.owner}\tsize:{...}"` with the byte length
for files and `-` for anything else. -/
def descriptorLine (n : String) (child : VNode) : String :=
  n ++ "\t" ++ child.type ++ "\towner:" ++ child.owner ++ "\tsize:" ++
    (if child.type = "file" then toString child.content.length else "-")

/-- The part of `cmd_ls` after resolution: a file's name, or one descriptor
line per sorted child name.  The lookup `node.children[n]` always succeeds
for `n` drawn from the sorted key list, so the `filterMap` drops nothing. -/
def lsRender (node : VNode) : String :=
  if node.type = "file" then node.name
  else
    joinWith "\n"
      ((list_dir node).filterMap (fun n => (findChild node n).map (descriptorLine n)))

/-- `Emulator.cmd_ls`: `args[0] if args else ""` resolved against the cwd
(the source's `if (path or args)` conditional calls `resolve_path` with the
same arguments in both branches). -/
def cmd_ls (root : VNode) (cwd_parts : List String) (args : List String) : String :=
  let path := match args with | [] => "" | a :: _ => a
  match resolve_path root cwd_parts path with
  | .error err => "ls: " ++ err
  | .ok node => lsRender node

/-- `Emulator.cmd_cd`: returns the new `cwd_parts` together with the output
text.  No arguments resets to the root; extra arguments beyond the first are
ignored (`path = args[0]`).  On success an absolute path is stored as its
raw `split_path` segments, a relative path as the stack-normalised
concatenation. -/
def cmd_cd (root : VNode) (cwd_parts : List String) (args : List String) :
    List String × String :=
  match args with
  | [] => ([], "")
  | path :: _ =>
    match resolve_path root cwd_parts path with
    | .error err => (cwd_parts, "cd: " ++ err)
    | .ok node =>
      if node.type ≠ "dir" then (cwd_parts, "cd: not a directory: " ++ path)
      else if startsWithSlash path then (split_path path, "")
      else (normalizeStack (cwd_parts ++ split_path path), "")

/-- `Emulator.cmd_rev`: a resolving directory is an error, a resolving
non-directory has its decoded content reversed (the source's `try` around
the decode is dead code, `errors="replace"` never raises), an unresolved
first argument falls back to reversing all arguments joined by spaces. -/
def cmd_rev (root : VNode) (cwd_parts : List String) (args : List String) : String :=
  match args with
  | [] => ""
  | target :: _ =>
    match resolve_path root cwd_parts target with
    | .error _ => strReverse (joinWith " " args)
    | .ok node =>
      if node.type = "dir" then "rev: " ++ target ++ " is a directory"
      else strReverse (decodeReplace node.content)

/-- The tail of `cmd_head` once the count `n` and the filename are fixed:
resolve, demand a file, and return the first `n` lines (Python slice
semantics) of the decoded content. -/
def headTail (root : VNode) (cwd_parts : List String) (n : Int) (filename : String) : String :=
  match resolve_path root cwd_parts filename with
  | .error err => "head: " ++ err
  | .ok node =>
    if node.type ≠ "file" then "head: " ++ filename ++ ": not a file"
    else joinWith "\n" (pySlice n (pySplitlines (decodeReplace node.content)))

/-- `Emulator.cmd_head`: `head [-n N] filename` with default `N = 10`; a
leading literal `-n` demands at least three arguments and an
integer-parsable count. -/
def cmd_head (root : VNode) (cwd_parts : List String) (args : List String) : String :=
  match args with
  | [] => "head: missing file operand"
  | a0 :: rest =>
    if a0 = "-n" then
      if args.length < 3 then "head: usage: head [-n N] filename"
      else
        match rest with
        | ns :: fname :: _ =>
          match pyParseInt ns with
          | none => "head: invalid number"
          | some n => headTail root cwd_parts n fname
        | _ => "head: usage: head [-n N] filename"
    else headTail root cwd_parts 10 a0

/-- Replace the value of the first binding of key `k` (the model of
assigning through a Python dict entry). -/
def replaceChild : List (String × VNode) → String → VNode → List (String × VNode)
  | [], _, _ => []
  | (k', v) :: rest, k, nv =>
    if k' = k then (k', nv) :: rest
    else (k', v) :: replaceChild rest k nv

/-- Functional rendering of the in-place mutation `node.owner = owner`: the
node reached from `v` along the access path `tr` has its `owner` field
replaced, every other field and every other node is rebuilt unchanged.  (An
invalid access path leaves the tree unchanged; `cmd_chown` only uses the
access path of a successful resolution.) -/
def setOwnerAt (o : String) : VNode → List String → VNode
  | .mk n t _ m c cs, [] => .mk n t o m c cs
  | v, k :: ks =>
    match findChild v k with
    | none => v
    | some child =>
      .mk v.name v.type v.owner v.mode v.content
        (replaceChild v.children k (setOwnerAt o child ks))

/-- `Emulator.cmd_chown`: fewer than two arguments is a usage error; on a
successful resolution the resolved node's `owner` is mutated in place
(returned here as the updated tree) and the output is empty. -/
def cmd_chown (root : VNode) (cwd_parts : List String) (args : List String) :
    VNode × String :=
  match args with
  | owner :: path :: _ =>
    match resolveEx root cwd_parts path with
    | .error err => (root, "chown: " ++ err)
    | .ok (tr, _) => (setOwnerAt owner root tr, "")
  | _ => (root, "chown: usage: chown owner path")

/-! ### The dispatcher (`Emulator.run_cmd`) -/

/-- The dispatcher-visible state of `class Emulator`: the tree root, the
cwd segments, the optional audit-log path, and the acting user.  The `log`
field models the contents of the XML audit sink as the ordered list of
events `(user, command, args)` appended to it. -/
structure EmuState where
  root : VNode
  cwd_parts : List String
  logPath : Option String
  log : List (String × String × List String)
  user : String

/-- `Emulator.echo_and_log`: appends one audit event when a log path is
configured, does nothing otherwise. -/
def echo_and_log (st : EmuState) (command : String) (args : List String) : EmuState :=
  if st.logPath.isSome then
    { st with log := st.log ++ [(st.user, command, args)] }
  else st

/-- The result of one dispatch: either the process terminated (`exit`,
which prints a farewell and calls `sys.exit(0)`), or an output string with
the successor state. -/
inductive DispatchResult where
  | exited : EmuState → DispatchResult
  | output : EmuState → String → DispatchResult

/-- The state carried by a dispatch result. -/
def DispatchResult.state : DispatchResult → EmuState
  | .exited st => st
  | .output st _ => st

/-- The `if/elif` command chain of `run_cmd`, after the audit event has been
emitted.  The source's `try/except Exception` around this chain is dead
code in the embedding: every handler is a total function (and `SystemExit`,
raised by `exit`, is not an `Exception`, so `exit` terminates through it). -/
def dispatchBody (st : EmuState) (command : String) (args : List String) : DispatchResult :=
  if command = "exit" then .exited st
  else if command = "ls" then .output st (cmd_ls st.root st.cwd_parts args)
  else if command = "cd" then
    let r := cmd_cd st.root st.cwd_parts args
    .output { st with cwd_parts := r.1 } r.2
  else if command = "whoami" then .output st st.user
  else if command = "rev" then .output st (cmd_rev st.root st.cwd_parts args)
  else if command = "head" then .output st (cmd_head st.root st.cwd_parts args)
  else if command = "chown" then
    let r := cmd_chown st.root st.cwd_parts args
    .output { st with root := r.1 } r.2
  else .output st ("Unknown command: " ++ command)

/-- `Emulator.run_cmd` (the name itself is a reserved token in Lean):
first log the event, then dispatch. -/
def run_command (st : EmuState) (command : String) (args : List String) : DispatchResult :=
  dispatchBody (echo_and_log st command args) command args

/-! ### Concrete trees used by the evaluations and witnesses -/

/-- A file node as the builder produces it (default owner and mode). -/
def mkFile (n : String) (content : List Nat) : VNode :=
  .mk n "file" "root" "rw" content []

/-- A directory node as the builder produces it. -/
def mkDir (n : String) (cs : List (String × VNode)) : VNode :=
  .mk n "dir" "root" "rw" [] cs

/-- A small demonstration tree, children deliberately in non-sorted
insertion order: `/x` (dir), `/f` (file, content `"a\nb\nc"`), `/a` (dir)
with `/a/b` (dir) and `/a/c` (file, content `"abc"`). -/
def Tdemo : VNode :=
  mkDir "/"
    [("x", mkDir "x" []),
     ("f", mkFile "f" [97, 10, 98, 10, 99]),
     ("a", mkDir "a" [("b", mkDir "b" []), ("c", mkFile "c" [97, 98, 99])])]

/-- A session state bound to `Tdemo` with no audit sink configured. -/
def stDemo : EmuState :=
  { root := Tdemo, cwd_parts := [], logPath := none, log := [], user := "alice" }

/-- A session state bound to `Tdemo` with an audit sink configured. -/
def stDemoLogged : EmuState :=
  { root := Tdemo, cwd_parts := [], logPath := some "log.xml", log := [], user := "alice" }

/-! ### Helper lemmas: error taxonomy of the resolver -/

theorem walkCwdEx_error {cur : VNode} {tr l : List String} {e : String}
    (h : walkCwdEx cur tr l = .error e) :
    ∃ p, e = "current directory broken: " ++ p ++ " missing" := by
  induction l generalizing cur tr with
  | nil => simp [walkCwdEx] at h
  | cons p rest ih =>
    rw [walkCwdEx] at h
    cases hf : findChild cur p with
    | none => rw [hf] at h; injection h with h; exact ⟨p, h.symm⟩
    | some c => rw [hf] at h; exact ih h

theorem walkPartsEx_error {msg : String} {cur : VNode} {tr l : List String} {e : String}
    (h : walkPartsEx msg cur tr l = .error e) : e = msg := by
  induction l generalizing cur tr with
  | nil => simp [walkPartsEx] at h
  | cons q rest ih =>
    rw [walkPartsEx] at h
    cases hf : findChild cur q with
    | none => rw [hf] at h; injection h with h; exact h.symm
    | some c => rw [hf] at h; exact ih h

theorem resolveLoopEx_error {root : VNode} {cwd_parts : List String} {path : String}
    {isAbs : Bool} {cur : VNode} {tr l : List String} {e : String}
    (h : resolveLoopEx root cwd_parts path isAbs cur tr l = .error e) :
    e = "path not found: " ++ path ∨
      ∃ s, e = "path not found: /" ++ s := by
  induction l generalizing cur tr with
  | nil => simp [resolveLoopEx] at h
  | cons p rest ih =>
    rw [resolveLoopEx] at h
    by_cases hdot : p = "."
    · rw [if_pos hdot] at h; exact ih h
    · rw [if_neg hdot] at h
      by_cases hdd : p = ".." ∧ isAbs = false
      · rw [if_pos hdd] at h
        exact Or.inr ⟨joinWith "/" (normalizeStack (cwd_parts ++ split_path path)),
          walkPartsEx_error h⟩
      · rw [if_neg hdd] at h
        cases hf : findChild cur p with
        | none => rw [hf] at h; injection h with h; exact Or.inl h.symm
        | some c => rw [hf] at h; exact ih h

/-- Every error of `resolve_path` is a `path not found` or a
`current directory broken` message. -/
theorem resolve_path_error_forms {root : VNode} {cwd_parts : List String}
    {path e : String} (h : resolve_path root cwd_parts path = .error e) :
    (∃ s, e = "path not found: " ++ s) ∨
      ∃ p, e = "current directory broken: " ++ p ++ " missing" := by
  rw [resolve_path] at h
  cases hr : resolveEx root cwd_parts path with
  | ok v => rw [hr] at h; simp [Except.map] at h
  | error e' =>
    rw [hr] at h
    simp only [Except.map] at h
    injection h with h
    subst h
    rw [resolveEx] at hr
    by_cases h0 : path = "" ∨ path = "."
    · rw [if_pos h0] at hr
      exact Or.inr (walkCwdEx_error hr)
    · rw [if_neg h0] at hr
      by_cases habs : startsWithSlash path
      · rw [if_pos habs] at hr
        rcases resolveLoopEx_error hr with h1 | ⟨s, h1⟩
        · exact Or.inl ⟨path, h1⟩
        · exact Or.inl ⟨"/" ++ s, by rw [h1]; rfl⟩
      · rw [if_neg habs] at hr
        rcases resolveLoopEx_error hr with h1 | ⟨s, h1⟩
        · exact Or.inl ⟨path, h1⟩
        · exact Or.inl ⟨"/" ++ s, by rw [h1]; rfl⟩

/-! ### Small string helpers for the proofs -/

theorem string_data_append (a b : String) : (a ++ b).data = a.data ++ b.data := rfl

theorem string_eq_of_data {a b : String} (h : a.data = b.data) : a = b := by
  cases a; cases b; exact congrArg String.mk h

/-! ### Claim C1 -/

/-- Claim C1 (code bug in the resolver): the spec's normalization law fails
on the code for absolute paths.  The source's `..` branch for absolute
paths assigns dead variables and falls through, so `..` is looked up as a
literal child name and resolution of any absolute path containing `..`
fails with `path not found`, while the claimed-equal normalised paths
resolve; this contradicts the source's own docstring, which promises
support for `..` on absolute paths. -/
theorem C1_absolute_dotdot_eval :
    resolve_path Tdemo [] "/a/./b/../c" = .error "path not found: /a/./b/../c" ∧
    resolve_path Tdemo [] "/a/c" = .ok (mkFile "c" [97, 98, 99]) ∧
    resolve_path Tdemo [] "/../../x" = .error "path not found: /../../x" ∧
    resolve_path Tdemo [] "/x" = .ok (mkDir "x" []) :=
  ⟨rfl, rfl, rfl, rfl⟩

/-! ### Claim C2 -/

/-- Claim C2 (counterexample): descending through the File `/f` as an
intermediate segment fails with the very same `path not found` error family
as the absent segment `/g` — the resolver has no distinct `NotADirectory`
error at all, refuting the claim that intermediate-File descent is reported
distinctly from an absent segment. -/
theorem C2_counterexample :
    resolve_path Tdemo [] "/f/z" = .error "path not found: /f/z" ∧
    resolve_path Tdemo [] "/g" = .error "path not found: /g" :=
  ⟨rfl, rfl⟩

/-- Claim C2 (amended): every resolver failure is a `path not found` or a
`current directory broken` message — descending through a File as an
intermediate segment fails as `path not found` exactly like an absent
segment, because a File's children dict is empty; there is no distinct
`NotADirectory` resolver error — while a File reached as the final segment
is still a valid resolution. -/
theorem C2_amended :
    (∀ (root : VNode) (cwd_parts : List String) (path e : String),
        resolve_path root cwd_parts path = .error e →
        (∃ s, e = "path not found: " ++ s) ∨
          ∃ p, e = "current directory broken: " ++ p ++ " missing") ∧
    (∀ (root f : VNode) (k : String),
        findChild root k = some f → split_path ("/" ++ k) = [k] → k ≠ "." →
        resolve_path root [] ("/" ++ k) = .ok f) := by
  constructor
  · exact fun _ _ _ _ h => resolve_path_error_forms h
  · intro root f k hf hsplit hk
    have hne : ¬(("/" ++ k : String) = "" ∨ ("/" ++ k : String) = ".") := by
      rintro (h | h) <;>
        · have hd := congrArg String.data h
          rw [string_data_append] at hd
          simp at hd
    have habs : startsWithSlash ("/" ++ k) = true := by
      rw [startsWithSlash, string_data_append]; rfl
    rw [resolve_path, resolveEx, if_neg hne, if_pos habs, hsplit, resolveLoopEx,
      if_neg hk, if_neg (by simp : ¬(k = ".." ∧ (true : Bool) = false)), hf]
    rfl

/-- Witness for the amended C2: `/f` is a File of `Tdemo` and resolves as a
valid final target. -/
theorem C2_amended_witness :
    resolve_path Tdemo [] ("/" ++ "f") = .ok (mkFile "f" [97, 10, 98, 10, 99]) :=
  C2_amended.2 Tdemo (mkFile "f" [97, 10, 98, 10, 99]) "f" rfl rfl (by decide)


/-! ### Claim C4 -/

/-- Claim C4 (counterexample): `cd` with two arguments is not a usage
error — the source never checks the argument count — and the working
directory does change: `cd a b` on `Tdemo` succeeds and moves to `/a`. -/
theorem C4_counterexample :
    cmd_cd Tdemo [] ["a", "b"] = (["a"], "") ∧ (["a"] : List String) ≠ [] :=
  ⟨rfl, by decide⟩

/-- Claim C4 (amended): `cd` ignores every argument beyond the first (no
usage error; with several arguments it acts on the first alone), while the
error half of the claim holds as stated: a path that fails to resolve, or
resolves to a non-directory, returns an error and leaves the working
directory unchanged. -/
theorem C4_amended :
    (∀ (root : VNode) (cwd_parts : List String) (p : String) (rest : List String),
        cmd_cd root cwd_parts (p :: rest) = cmd_cd root cwd_parts [p]) ∧
    (∀ (root : VNode) (cwd_parts : List String) (p : String) (rest : List String)
        (e : String),
        resolve_path root cwd_parts p = .error e →
        cmd_cd root cwd_parts (p :: rest) = (cwd_parts, "cd: " ++ e)) ∧
    (∀ (root : VNode) (cwd_parts : List String) (p : String) (rest : List String)
        (node : VNode),
        resolve_path root cwd_parts p = .ok node → node.type ≠ "dir" →
        cmd_cd root cwd_parts (p :: rest) = (cwd_parts, "cd: not a directory: " ++ p)) := by
  refine ⟨fun root cwd p rest => rfl, ?_, ?_⟩
  · intro root cwd p rest e h
    simp only [cmd_cd, h]
  · intro root cwd p rest node h hnd
    simp only [cmd_cd, h, if_pos hnd]

/-- Witness for the amended C4: an unresolvable path and a File target,
each with an extra argument, leave the cwd unchanged. -/
theorem C4_amended_witness :
    cmd_cd Tdemo [] ["g", "zz"] = ([], "cd: " ++ "path not found: g") ∧
    cmd_cd Tdemo [] ["f", "zz"] = ([], "cd: not a directory: " ++ "f") :=
  ⟨C4_amended.2.1 Tdemo [] "g" ["zz"] "path not found: g" rfl,
   C4_amended.2.2 Tdemo [] "f" ["zz"] (mkFile "f" [97, 10, 98, 10, 99]) rfl (by decide)⟩

/-! ### Claim C5 -/

/-- Claim C5 (counterexample): `head -n -1` on the 3-line file `/f` returns
the first two lines, not empty output — a negative count is Python slice
semantics (`lines[:-1]`), refuting `no lines whenever N ≤ 0`. -/
theorem C5_counterexample :
    cmd_head Tdemo [] ["-n", "-1", "f"] = "a\nb" ∧
    pyParseInt "-1" = some (-1) ∧ (-1 : Int) ≤ 0 ∧ ("a\nb" : String) ≠ "" :=
  ⟨rfl, by decide, by decide, by decide⟩

/-- Claim C5 (amended): `head` defaults to `N = 10`; a leading literal `-n`
consumes the next argument as an integer count, a malformed count or fewer
than three arguments after `-n` is an error; on a resolved File it returns
the first `N` lines of the decoded text (fewer if the file has fewer
lines); `N = 0` returns no lines, but a **negative** `N` follows Python
slice semantics and returns all but the last `|N|` lines; an unresolved
filename or a non-File target is an error. -/
theorem C5_amended :
    (∀ (root : VNode) (cwd : List String) (fname : String) (node : VNode),
        fname ≠ "-n" → resolve_path root cwd fname = .ok node → node.type = "file" →
        cmd_head root cwd [fname] =
          joinWith "\n" ((pySplitlines (decodeReplace node.content)).take 10)) ∧
    (∀ (root : VNode) (cwd : List String) (ns fname : String) (rest : List String)
        (node : VNode) (n : Int),
        pyParseInt ns = some n → resolve_path root cwd fname = .ok node →
        node.type = "file" →
        cmd_head root cwd ("-n" :: ns :: fname :: rest) =
          joinWith "\n" (pySlice n (pySplitlines (decodeReplace node.content)))) ∧
    (∀ l : List String, pySlice 0 l = []) ∧
    (∀ (n : Int) (l : List String), 0 ≤ n → pySlice n l = l.take n.toNat) ∧
    (∀ (n : Int) (l : List String), n < 0 →
        pySlice n l = l.take (l.length - (-n).toNat)) ∧
    (∀ (root : VNode) (cwd : List String) (ns fname : String) (rest : List String),
        pyParseInt ns = none →
        cmd_head root cwd ("-n" :: ns :: fname :: rest) = "head: invalid number") ∧
    (∀ (root : VNode) (cwd : List String),
        cmd_head root cwd ["-n"] = "head: usage: head [-n N] filename") ∧
    (∀ (root : VNode) (cwd : List String) (x : String),
        cmd_head root cwd ["-n", x] = "head: usage: head [-n N] filename") ∧
    (∀ (root : VNode) (cwd : List String) (fname e : String),
        fname ≠ "-n" → resolve_path root cwd fname = .error e →
        cmd_head root cwd [fname] = "head: " ++ e) ∧
    (∀ (root : VNode) (cwd : List String) (fname : String) (node : VNode),
        fname ≠ "-n" → resolve_path root cwd fname = .ok node → node.type ≠ "file" →
        cmd_head root cwd [fname] = "head: " ++ fname ++ ": not a file") := by
  refine ⟨?_, ?_, ?_, ?_, ?_, ?_, ?_, ?_, ?_, ?_⟩
  · intro root cwd fname node hn hres ht
    simp only [cmd_head, if_neg hn, headTail, hres, ht]
    simp [pySlice]
  · intro root cwd ns fname rest node n hns hres ht
    have hlen : ¬(("-n" :: ns :: fname :: rest).length < 3) := by
      simp [List.length]
    simp only [cmd_head, if_pos rfl, if_neg hlen, hns, headTail, hres, ht]
    simp
  · intro l
    simp [pySlice]
  · intro n l h
    simp [pySlice, h]
  · intro n l h
    rw [pySlice, if_neg (by omega)]
  · intro root cwd ns fname rest hns
    have hlen : ¬(("-n" :: ns :: fname :: rest).length < 3) := by
      simp [List.length]
    simp only [cmd_head, if_pos rfl, if_neg hlen, hns]
    simp
  · intro root cwd
    simp [cmd_head]
  · intro root cwd x
    simp [cmd_head]
  · intro root cwd fname e hn hres
    simp only [cmd_head, if_neg hn, headTail, hres]
  · intro root cwd fname node hn hres ht
    simp only [cmd_head, if_neg hn, headTail, hres, if_pos ht]

/-- Witness for the amended C5: the spec's own `head` examples evaluated on
`Tdemo`'s 3-line file `/f`. -/
theorem C5_amended_witness :
    cmd_head Tdemo [] ["-n", "2", "f"] = "a\nb" ∧
    cmd_head Tdemo [] ["-n", "0", "f"] = "" ∧
    cmd_head Tdemo [] ["f"] = "a\nb\nc" :=
  ⟨(C5_amended.2.1 Tdemo [] "2" "f" [] (mkFile "f" [97, 10, 98, 10, 99]) 2
      (by decide) rfl rfl).trans rfl,
   (C5_amended.2.1 Tdemo [] "0" "f" [] (mkFile "f" [97, 10, 98, 10, 99]) 0
      (by decide) rfl rfl).trans rfl,
   (C5_amended.1 Tdemo [] "f" (mkFile "f" [97, 10, 98, 10, 99])
      (by decide) rfl rfl).trans rfl⟩

/-! ### Claim C7 -/

/-- Claim C7 (confirmed): `rev`'s three behaviours.  A first argument
resolving to a File yields its decoded content (decoding is total — the
`replace` error handler never raises) with the character order reversed; a
first argument resolving to a Directory yields the directory usage error;
an unresolved first argument yields all arguments joined by single spaces,
reversed as a literal string. -/
theorem C7_rev_semantics :
    (∀ (root : VNode) (cwd : List String) (t : String) (rest : List String)
        (node : VNode),
        resolve_path root cwd t = .ok node → node.type = "file" →
        cmd_rev root cwd (t :: rest) = strReverse (decodeReplace node.content)) ∧
    (∀ (root : VNode) (cwd : List String) (t : String) (rest : List String)
        (node : VNode),
        resolve_path root cwd t = .ok node → node.type = "dir" →
        cmd_rev root cwd (t :: rest) = "rev: " ++ t ++ " is a directory") ∧
    (∀ (root : VNode) (cwd : List String) (t : String) (rest : List String)
        (e : String),
        resolve_path root cwd t = .error e →
        cmd_rev root cwd (t :: rest) = strReverse (joinWith " " (t :: rest))) ∧
    (∀ s : String, (strReverse s).data = s.data.reverse) := by
  refine ⟨?_, ?_, ?_, fun s => rfl⟩
  · intro root cwd t rest node hres ht
    simp only [cmd_rev, hres, ht]
    simp
  · intro root cwd t rest node hres ht
    simp only [cmd_rev, hres, if_pos ht]
  · intro root cwd t rest e hres
    simp only [cmd_rev, hres]

/-- Witness for C7: the spec's three `rev` examples on `Tdemo` (`/a/c`
decodes to `"abc"`, `/x` is a directory, `hello` resolves to nothing). -/
theorem C7_witness :
    cmd_rev Tdemo [] ["hello"] = "olleh" ∧
    cmd_rev Tdemo [] ["/a/c"] = "cba" ∧
    cmd_rev Tdemo [] ["x"] = "rev: x is a directory" :=
  ⟨(C7_rev_semantics.2.2.1 Tdemo [] "hello" [] "path not found: hello" rfl).trans rfl,
   (C7_rev_semantics.1 Tdemo [] "/a/c" [] (mkFile "c" [97, 98, 99]) rfl rfl).trans rfl,
   (C7_rev_semantics.2.1 Tdemo [] "x" [] (mkDir "x" []) rfl rfl).trans rfl⟩


/-! ### Order lemmas for the sorting performed by ls -/

theorem lexLe_total : ∀ a b : List Char, lexLe a b = true ∨ lexLe b a = true
  | [], _ => Or.inl rfl
  | _ :: _, [] => Or.inr rfl
  | a :: as, b :: bs => by
    rw [lexLe, lexLe]
    rcases Nat.lt_trichotomy a.toNat b.toNat with h | h | h
    · exact Or.inl (by rw [if_pos h])
    · rw [if_neg (by omega), if_neg (by omega), if_neg (by omega), if_neg (by omega)]
      exact lexLe_total as bs
    · exact Or.inr (by rw [if_pos h])


theorem lexLe_trans : ∀ {a b c : List Char},
    lexLe a b = true → lexLe b c = true → lexLe a c = true
  | [], _, _, _, _ => rfl
  | _ :: _, [], _, h1, _ => by rw [lexLe] at h1; exact absurd h1 (by simp)
  | _ :: _, _ :: _, [], _, h2 => by rw [lexLe] at h2; exact absurd h2 (by simp)
  | a :: as, b :: bs, c :: cs, h1, h2 => by
    rw [lexLe] at h1 h2 ⊢
    by_cases hab : a.toNat < b.toNat
    · by_cases hbc : b.toNat < c.toNat
      · rw [if_pos (by omega)]
      · by_cases hcb : c.toNat < b.toNat
        · rw [if_neg hbc, if_pos hcb] at h2
          exact absurd h2 (by simp)
        · rw [if_pos (by omega)]
    · by_cases hba : b.toNat < a.toNat
      · rw [if_neg hab, if_pos hba] at h1
        exact absurd h1 (by simp)
      · by_cases hbc : b.toNat < c.toNat
        · rw [if_pos (by omega)]
        · by_cases hcb : c.toNat < b.toNat
          · rw [if_neg hbc, if_pos hcb] at h2
            exact absurd h2 (by simp)
          · rw [if_neg hab, if_neg hba] at h1
            rw [if_neg hbc, if_neg hcb] at h2
            rw [if_neg (by omega), if_neg (by omega)]
            exact lexLe_trans h1 h2

theorem lexLe_antisymm : ∀ {a b : List Char},
    lexLe a b = true → lexLe b a = true → a = b
  | [], [], _, _ => rfl
  | [], _ :: _, _, h2 => by rw [lexLe] at h2; exact absurd h2 (by simp)
  | _ :: _, [], h1, _ => by rw [lexLe] at h1; exact absurd h1 (by simp)
  | a :: as, b :: bs, h1, h2 => by
    rw [lexLe] at h1 h2
    by_cases hab : a.toNat < b.toNat
    · rw [if_neg (by omega), if_pos hab] at h2
      exact absurd h2 (by simp)
    · by_cases hba : b.toNat < a.toNat
      · rw [if_neg hab, if_pos hba] at h1
        exact absurd h1 (by simp)
      · have hn : a.toNat = b.toNat := by omega
        have hc : a = b := Char.ext (UInt32.ext hn)
        rw [if_neg hab, if_neg hba] at h1
        rw [if_neg hba, if_neg hab] at h2
        rw [hc, lexLe_antisymm h1 h2]

theorem strLe_total (a b : String) : strLe a b = true ∨ strLe b a = true :=
  lexLe_total a.data b.data

theorem strLe_trans {a b c : String} (h1 : strLe a b = true) (h2 : strLe b c = true) :
    strLe a c = true :=
  lexLe_trans h1 h2

theorem strLe_antisymm {a b : String} (h1 : strLe a b = true) (h2 : strLe b a = true) :
    a = b :=
  string_eq_of_data (lexLe_antisymm h1 h2)

theorem pySorted_perm (l : List String) : (pySorted l).Perm l :=
  List.perm_insertionSort _ l

theorem pySorted_sorted (l : List String) :
    List.Sorted (fun a b => strLe a b = true) (pySorted l) := by
  haveI : IsTotal String (fun a b => strLe a b = true) := ⟨strLe_total⟩
  haveI : IsTrans String (fun a b => strLe a b = true) := ⟨fun _ _ _ => strLe_trans⟩
  exact List.sorted_insertionSort _ l

/-- Python `sorted` depends only on the multiset of its input: sorting any
permutation of a key list gives the same sorted list. -/
theorem pySorted_eq_of_perm {l l' : List String} (h : l.Perm l') :
    pySorted l = pySorted l' := by
  haveI : IsAntisymm String (fun a b => strLe a b = true) := ⟨fun _ _ => strLe_antisymm⟩
  exact List.eq_of_perm_of_sorted
    ((pySorted_perm l).trans (h.trans (pySorted_perm l').symm))
    (pySorted_sorted l) (pySorted_sorted l')


/-- Dict lookup is insensitive to reordering of the bindings when the keys
are unique. -/
theorem findPair_perm {cs cs' : List (String × VNode)} (hp : cs.Perm cs') :
    (cs.map Prod.fst).Nodup → ∀ k, findPair k cs = findPair k cs' := by
  induction hp with
  | nil => exact fun _ _ => rfl
  | cons x h ih =>
    intro hnd k
    rcases x with ⟨kx, vx⟩
    rw [findPair, findPair]
    by_cases hk : kx = k
    · rw [if_pos hk, if_pos hk]
    · rw [if_neg hk, if_neg hk]
      exact ih (by simpa using (List.nodup_cons.mp (by simpa using hnd)).2) k
  | swap x y l =>
    intro hnd k
    rcases x with ⟨kx, vx⟩
    rcases y with ⟨ky, vy⟩
    have hxy : ky ≠ kx := by
      have h1 := hnd
      simp [List.nodup_cons] at h1
      exact h1.1.1
    rw [findPair, findPair, findPair, findPair]
    by_cases hky : ky = k
    · rw [if_pos hky, if_neg (fun h => hxy (hky.trans h.symm)), if_pos hky]
    · by_cases hkx : kx = k
      · rw [if_neg hky, if_pos hkx, if_pos hkx]
      · rw [if_neg hky, if_neg hkx, if_neg hkx, if_neg hky]
  | trans h12 h23 ih1 ih2 =>
    intro hnd k
    exact (ih1 hnd k).trans (ih2 ((h12.map Prod.fst).nodup_iff.mp hnd) k)

theorem findPair_isSome_of_mem {k : String} : ∀ {cs : List (String × VNode)},
    k ∈ cs.map Prod.fst → (findPair k cs).isSome = true
  | [], h => by simp at h
  | (k1, v1) :: rest, h => by
    rw [findPair]
    by_cases hk : k1 = k
    · rw [if_pos hk]; rfl
    · rw [if_neg hk]
      refine findPair_isSome_of_mem ?_
      simp at h
      rcases h with h | h
      · exact absurd h.symm hk
      · simpa using h

theorem filterMap_length_of_isSome {α β : Type} (f : α → Option β) :
    ∀ l : List α, (∀ x ∈ l, (f x).isSome = true) → (l.filterMap f).length = l.length
  | [], _ => rfl
  | x :: rest, h => by
    cases hfx : f x with
    | none => exact absurd (h x (by simp)) (by simp [hfx])
    | some b =>
      simp only [List.filterMap_cons, hfx, List.length_cons]
      rw [filterMap_length_of_isSome f rest (fun y hy => h y (by simp [hy]))]

/-- `lsRender` is insensitive to the insertion order of a node's children
when the child keys are unique (Python dict keys always are). -/
theorem lsRender_children_perm (n t o m : String) (c : List Nat)
    {cs cs' : List (String × VNode)} (hp : cs.Perm cs')
    (hnd : (cs.map Prod.fst).Nodup) :
    lsRender (VNode.mk n t o m c cs) = lsRender (VNode.mk n t o m c cs') := by
  have hfp : ∀ k, findChild (VNode.mk n t o m c cs) k
      = findChild (VNode.mk n t o m c cs') k :=
    fun k => findPair_perm hp hnd k
  have hlist : list_dir (VNode.mk n t o m c cs) = list_dir (VNode.mk n t o m c cs') := by
    rw [list_dir, list_dir]
    by_cases hd : t = "dir"
    · rw [if_neg (by simp [VNode.type, hd]), if_neg (by simp [VNode.type, hd])]
      simp only [VNode.children]
      exact pySorted_eq_of_perm (hp.map Prod.fst)
    · rw [if_pos (by simp [VNode.type, hd]), if_pos (by simp [VNode.type, hd])]
      rw [to_repr, to_repr]
      simp only [VNode.type, VNode.name, VNode.owner, VNode.content]
      rw [if_neg hd, if_neg hd]
  rw [lsRender, lsRender]
  by_cases ht : t = "file"
  · rw [if_pos (by simp [VNode.type, ht]), if_pos (by simp [VNode.type, ht])]
    rfl
  · rw [if_neg (by simp [VNode.type, ht]), if_neg (by simp [VNode.type, ht]), hlist]
    have hfun : (fun nm => (findChild (VNode.mk n t o m c cs) nm).map (descriptorLine nm))
        = fun nm => (findChild (VNode.mk n t o m c cs') nm).map (descriptorLine nm) :=
      funext fun nm => by rw [hfp nm]
    rw [hfun]


/-! ### Claim C6 -/

/-- Claim C6 (confirmed): `ls` resolves its optional path argument (when no
argument is given, the empty path, i.e. the cwd); a resolved File yields
its one-line descriptor (the file's name); a resolved Directory yields one
descriptor line per child — name, kind, owner and size (`-` for non-files)
— over the child names sorted lexicographically, and the sorted listing is
independent of the insertion order of the children. -/
theorem C6_ls_semantics :
    (∀ (root : VNode) (cwd : List String) (node : VNode),
        resolve_path root cwd "" = .ok node → cmd_ls root cwd [] = lsRender node) ∧
    (∀ (root : VNode) (cwd : List String) (p : String) (rest : List String)
        (node : VNode),
        resolve_path root cwd p = .ok node → cmd_ls root cwd (p :: rest) = lsRender node) ∧
    (∀ node : VNode, node.type = "file" → lsRender node = node.name) ∧
    (∀ node : VNode, node.type = "dir" →
        lsRender node = joinWith "\n" ((list_dir node).filterMap
          (fun nm => (findChild node nm).map (descriptorLine nm))) ∧
        list_dir node = pySorted (node.children.map Prod.fst) ∧
        List.Sorted (fun a b => strLe a b = true) (list_dir node) ∧
        ((list_dir node).filterMap
            (fun nm => (findChild node nm).map (descriptorLine nm))).length
          = node.children.length) ∧
    (∀ (nm : String) (child : VNode), descriptorLine nm child =
        nm ++ "\t" ++ child.type ++ "\towner:" ++ child.owner ++ "\tsize:" ++
          (if child.type = "file" then toString child.content.length else "-")) ∧
    (∀ (n t o m : String) (c : List Nat) (cs cs' : List (String × VNode)),
        cs.Perm cs' → (cs.map Prod.fst).Nodup →
        lsRender (VNode.mk n t o m c cs) = lsRender (VNode.mk n t o m c cs')) := by
  refine ⟨?_, ?_, ?_, ?_, fun nm child => rfl,
    fun n t o m c cs cs' hp hnd => lsRender_children_perm n t o m c hp hnd⟩
  · intro root cwd node h
    simp only [cmd_ls, h]
  · intro root cwd p rest node h
    simp only [cmd_ls, h]
  · intro node ht
    rw [lsRender, if_pos ht]
  · intro node ht
    have hfile : ¬node.type = "file" := by rw [ht]; decide
    have hld : list_dir node = pySorted (node.children.map Prod.fst) := by
      rw [list_dir, if_neg (by simp [ht])]
    refine ⟨by rw [lsRender, if_neg hfile], hld, hld ▸ pySorted_sorted _, ?_⟩
    rw [filterMap_length_of_isSome _ _ ?_, hld,
      (pySorted_perm (node.children.map Prod.fst)).length_eq, List.length_map]
    intro nm hm
    have hmem : nm ∈ node.children.map Prod.fst := by
      rw [hld] at hm
      exact (pySorted_perm _).mem_iff.mp hm
    have hs : (findPair nm node.children).isSome = true := findPair_isSome_of_mem hmem
    simpa [findChild] using hs

/-- Witness for C6: `ls` with no argument on `Tdemo` (insertion order
`x, f, a`) prints the three children sorted `a, f, x`; and reordering the
children of a two-child directory does not change its rendering. -/
theorem C6_witness :
    cmd_ls Tdemo [] []
      = "a\tdir\towner:root\tsize:-\nf\tfile\towner:root\tsize:5\nx\tdir\towner:root\tsize:-" ∧
    lsRender (VNode.mk "d" "dir" "root" "rw" []
        [("b", mkDir "b" []), ("a", mkDir "a" [])])
      = lsRender (VNode.mk "d" "dir" "root" "rw" []
        [("a", mkDir "a" []), ("b", mkDir "b" [])]) :=
  ⟨(C6_ls_semantics.1 Tdemo [] Tdemo rfl).trans rfl,
   C6_ls_semantics.2.2.2.2.2 "d" "dir" "root" "rw" []
     [("b", mkDir "b" []), ("a", mkDir "a" [])]
     [("a", mkDir "a" []), ("b", mkDir "b" [])]
     (List.Perm.swap ("a", mkDir "a" []) ("b", mkDir "b" []) [])
     (by decide)⟩


/-! ### Walk lemmas relating the resolver to plain tree walks -/

theorem nodeAt_append (l1 l2 : List String) : ∀ cur : VNode,
    nodeAt cur (l1 ++ l2) = (nodeAt cur l1).bind (fun v => nodeAt v l2) := by
  induction l1 with
  | nil => intro cur; rfl
  | cons k ks ih =>
    intro cur
    rw [List.cons_append, nodeAt, nodeAt]
    cases findChild cur k with
    | none => rfl
    | some c => exact ih c

theorem walkPartsEx_ok_walk {msg : String} : ∀ {cur : VNode} {tr l tr2 : List String}
    {n : VNode}, walkPartsEx msg cur tr l = .ok (tr2, n) → nodeAt cur l = some n := by
  intro cur tr l
  induction l generalizing cur tr with
  | nil => intro tr2 n h; injection h with h; rw [nodeAt]; rw [(Prod.mk.injEq _ _ _ _).mp h.symm |>.2]
  | cons q rest ih =>
    intro tr2 n h
    rw [walkPartsEx] at h
    rw [nodeAt]
    cases hf : findChild cur q with
    | none => rw [hf] at h; exact absurd h (by simp)
    | some c => rw [hf] at h; exact ih h

theorem walkCwdEx_ok_walk : ∀ {cur : VNode} {tr l tr2 : List String} {n : VNode},
    walkCwdEx cur tr l = .ok (tr2, n) → nodeAt cur l = some n := by
  intro cur tr l
  induction l generalizing cur tr with
  | nil => intro tr2 n h; injection h with h; rw [nodeAt]; rw [(Prod.mk.injEq _ _ _ _).mp h.symm |>.2]
  | cons p rest ih =>
    intro tr2 n h
    rw [walkCwdEx] at h
    rw [nodeAt]
    cases hf : findChild cur p with
    | none => rw [hf] at h; exact absurd h (by simp)
    | some c => rw [hf] at h; exact ih h

/-- If the main loop succeeds and contains no `..` segment, the result is
the plain walk of the segments with `.` dropped. -/
theorem resolveLoopEx_ok_no_dotdot {root : VNode} {cwd_parts : List String}
    {path : String} : ∀ {cur : VNode} {tr l tr2 : List String} {n : VNode},
    (∀ x ∈ l, x ≠ "..") →
    resolveLoopEx root cwd_parts path false cur tr l = .ok (tr2, n) →
    nodeAt cur (l.filter (fun x => x ≠ ".")) = some n := by
  intro cur tr l
  induction l generalizing cur tr with
  | nil => intro tr2 n _ h; injection h with h; rw [(Prod.mk.injEq _ _ _ _).mp h.symm |>.2]; rfl
  | cons p rest ih =>
    intro tr2 n hnd h
    rw [resolveLoopEx] at h
    by_cases hp : p = "."
    · rw [if_pos hp] at h
      have : (p :: rest).filter (fun x => x ≠ ".") = rest.filter (fun x => x ≠ ".") := by
        simp [List.filter_cons, hp]
      rw [this]
      exact ih (fun x hx => hnd x (by simp [hx])) h
    · rw [if_neg hp, if_neg (by
        rintro ⟨h1, _⟩
        exact hnd p (by simp) h1)] at h
      have : (p :: rest).filter (fun x => x ≠ ".") = p :: rest.filter (fun x => x ≠ ".") := by
        simp [List.filter_cons, hp]
      rw [this, nodeAt]
      cases hf : findChild cur p with
      | none => rw [hf] at h; exact absurd h (by simp)
      | some c =>
        rw [hf] at h
        exact ih (fun x hx => hnd x (by simp [hx])) h
    
/-- If the main loop succeeds on a relative path whose working segment list
contains a `..`, the result is the walk of the fully renormalised list. -/
theorem resolveLoopEx_ok_dotdot {root : VNode} {cwd_parts : List String}
    {path : String} : ∀ {cur : VNode} {tr l tr2 : List String} {n : VNode},
    ".." ∈ l →
    resolveLoopEx root cwd_parts path false cur tr l = .ok (tr2, n) →
    nodeAt root (normalizeStack (cwd_parts ++ split_path path)) = some n := by
  intro cur tr l
  induction l generalizing cur tr with
  | nil => intro tr2 n hm; exact absurd hm (by simp)
  | cons p rest ih =>
    intro tr2 n hm h
    rw [resolveLoopEx] at h
    by_cases hp : p = "."
    · rw [if_pos hp] at h
      have hm2 : ".." ∈ rest := by
        rcases List.mem_cons.mp hm with h1 | h1
        · exact absurd (h1.trans hp) (by decide)
        · exact h1
      exact ih hm2 h
    · by_cases hpp : p = ".."
      · rw [if_neg hp, if_pos ⟨hpp, rfl⟩] at h
        exact walkPartsEx_ok_walk h
      · rw [if_neg hp, if_neg (by rintro ⟨h1, _⟩; exact hpp h1)] at h
        have hm2 : ".." ∈ rest := by
          rcases List.mem_cons.mp hm with h1 | h1
          · exact absurd h1.symm hpp
          · exact h1
        cases hf : findChild cur p with
        | none => rw [hf] at h; exact absurd h (by simp)
        | some c => rw [hf] at h; exact ih hm2 h

theorem normalizeStack_foldl_no_dotdot : ∀ (l : List String) (acc : List String),
    (∀ x ∈ l, x ≠ "..") →
    List.foldl
      (fun stack q =>
        if q = "." then stack
        else if q = ".." then stack.dropLast
        else stack ++ [q]) acc l
      = acc ++ l.filter (fun x => x ≠ ".") := by
  intro l
  induction l with
  | nil => intro acc _; simp
  | cons q rest ih =>
    intro acc hnd
    rw [List.foldl_cons]
    by_cases hq : q = "."
    · rw [if_pos hq]
      rw [ih acc (fun x hx => hnd x (by simp [hx]))]
      simp [List.filter_cons, hq]
    · rw [if_neg hq, if_neg (hnd q (by simp))]
      rw [ih (acc ++ [q]) (fun x hx => hnd x (by simp [hx]))]
      simp [List.filter_cons, hq]

/-- With no `..` present, the normalisation stack is just the removal of
`.` segments. -/
theorem normalizeStack_no_dotdot {l : List String} (h : ∀ x ∈ l, x ≠ "..") :
    normalizeStack l = l.filter (fun x => x ≠ ".") := by
  rw [normalizeStack, normalizeStack_foldl_no_dotdot l [] h]
  rfl


/-! ### Claim C3 -/

/-- Claim C3 (counterexample): `cd /a/./b` succeeds on `Tdemo` but stores
the raw split `["a", ".", "b"]` as the cwd — not the normalised
`["a", "b"]` — and re-walking that cwd from the root fails with a broken
cwd error instead of reaching a Directory. -/
theorem C3_counterexample :
    cmd_cd Tdemo [] ["/a/./b"] = (["a", ".", "b"], "") ∧
    normalizeStack (split_path "/a/./b") = ["a", "b"] ∧
    (["a", ".", "b"] : List String) ≠ ["a", "b"] ∧
    resolve_path Tdemo ["a", ".", "b"] "" = .error "current directory broken: . missing" :=
  ⟨rfl, rfl, by decide, rfl⟩

/-- Claim C3 (amended): on success `cd` stores, for a relative path, the
stack-normalised concatenation of the old cwd and the path's segments —
and re-walking that stored sequence from the root does reach the resolved
Directory node — but for an absolute path it stores the raw split segments
with no `.`/`..` elimination (a literal `.` segment is retained; a `..`
cannot occur because resolution of an absolute path containing `..` always
fails), so the re-walk guarantee is lost for absolute paths. -/
theorem C3_amended :
    (∀ (root : VNode) (cwd_parts : List String) (path : String) (node : VNode),
        resolve_path root cwd_parts path = .ok node → node.type = "dir" →
        cmd_cd root cwd_parts [path] =
          ((if startsWithSlash path then split_path path
            else normalizeStack (cwd_parts ++ split_path path)), "")) ∧
    (∀ (root : VNode) (cwd_parts : List String) (path : String) (node : VNode),
        startsWithSlash path = false → ¬(path = "" ∨ path = ".") →
        resolve_path root cwd_parts path = .ok node →
        nodeAt root (normalizeStack (cwd_parts ++ split_path path)) = some node) := by
  constructor
  · intro root cwd path node hres ht
    simp only [cmd_cd, hres]
    rw [if_neg (show ¬node.type ≠ "dir" by simp [ht])]
    by_cases habs : startsWithSlash path
    · rw [if_pos habs, if_pos habs]
    · rw [if_neg habs, if_neg habs]
  · intro root cwd path node habs h0 hres
    rw [resolve_path, resolveEx, if_neg h0, if_neg (by simp [habs])] at hres
    cases hr : resolveLoopEx root cwd path false root [] (cwd ++ split_path path) with
    | error e => rw [hr] at hres; exact absurd hres (by simp [Except.map])
    | ok r =>
      rcases r with ⟨tr, n⟩
      rw [hr] at hres
      simp only [Except.map] at hres
      injection hres with hres
      subst hres
      by_cases hdd : ".." ∈ cwd ++ split_path path
      · exact resolveLoopEx_ok_dotdot hdd hr
      · rw [normalizeStack_no_dotdot (fun x hx he => hdd (he ▸ hx))]
        exact resolveLoopEx_ok_no_dotdot (fun x hx he => hdd (he ▸ hx)) hr

/-- Witness for the amended C3: `cd a` from the root of `Tdemo` stores the
normalised relative sequence, and re-walking it reaches the directory. -/
theorem C3_amended_witness :
    cmd_cd Tdemo [] ["a"] =
      (normalizeStack ([] ++ split_path "a"), "") ∧
    nodeAt Tdemo (normalizeStack ([] ++ split_path "a"))
      = some (mkDir "a" [("b", mkDir "b" []), ("c", mkFile "c" [97, 98, 99])]) :=
  ⟨(C3_amended.1 Tdemo [] "a"
      (mkDir "a" [("b", mkDir "b" []), ("c", mkFile "c" [97, 98, 99])]) rfl rfl).trans
      (by rfl),
   C3_amended.2 Tdemo [] "a"
      (mkDir "a" [("b", mkDir "b" []), ("c", mkFile "c" [97, 98, 99])]) rfl
      (by decide) rfl⟩


/-! ### Trace lemmas: the access path returned by the resolver is the
resolved node's position -/

theorem walkCwdEx_ok_trace {root : VNode} : ∀ {cur : VNode} {tr l tr2 : List String}
    {n : VNode}, nodeAt root tr = some cur → walkCwdEx cur tr l = .ok (tr2, n) →
    nodeAt root tr2 = some n := by
  intro cur tr l
  induction l generalizing cur tr with
  | nil =>
    intro tr2 n hinv h
    injection h with h
    have h2 := (Prod.mk.injEq _ _ _ _).mp h.symm
    rw [h2.1, h2.2]
    exact hinv
  | cons p rest ih =>
    intro tr2 n hinv h
    rw [walkCwdEx] at h
    cases hf : findChild cur p with
    | none => rw [hf] at h; exact absurd h (by simp)
    | some c =>
      rw [hf] at h
      refine ih ?_ h
      rw [nodeAt_append, hinv]
      simp [nodeAt, hf]

theorem walkPartsEx_ok_trace {msg : String} {root : VNode} :
    ∀ {cur : VNode} {tr l tr2 : List String} {n : VNode},
    nodeAt root tr = some cur → walkPartsEx msg cur tr l = .ok (tr2, n) →
    nodeAt root tr2 = some n := by
  intro cur tr l
  induction l generalizing cur tr with
  | nil =>
    intro tr2 n hinv h
    injection h with h
    have h2 := (Prod.mk.injEq _ _ _ _).mp h.symm
    rw [h2.1, h2.2]
    exact hinv
  | cons q rest ih =>
    intro tr2 n hinv h
    rw [walkPartsEx] at h
    cases hf : findChild cur q with
    | none => rw [hf] at h; exact absurd h (by simp)
    | some c =>
      rw [hf] at h
      refine ih ?_ h
      rw [nodeAt_append, hinv]
      simp [nodeAt, hf]

theorem resolveLoopEx_ok_trace {root : VNode} {cwd_parts : List String} {path : String}
    {isAbs : Bool} : ∀ {cur : VNode} {tr l tr2 : List String} {n : VNode},
    nodeAt root tr = some cur →
    resolveLoopEx root cwd_parts path isAbs cur tr l = .ok (tr2, n) →
    nodeAt root tr2 = some n := by
  intro cur tr l
  induction l generalizing cur tr with
  | nil =>
    intro tr2 n hinv h
    injection h with h
    have h2 := (Prod.mk.injEq _ _ _ _).mp h.symm
    rw [h2.1, h2.2]
    exact hinv
  | cons p rest ih =>
    intro tr2 n hinv h
    rw [resolveLoopEx] at h
    by_cases hp : p = "."
    · rw [if_pos hp] at h
      exact ih hinv h
    · rw [if_neg hp] at h
      by_cases hdd : p = ".." ∧ isAbs = false
      · rw [if_pos hdd] at h
        exact walkPartsEx_ok_trace (by rw [nodeAt]) h
      · rw [if_neg hdd] at h
        cases hf : findChild cur p with
        | none => rw [hf] at h; exact absurd h (by simp)
        | some c =>
          rw [hf] at h
          refine ih ?_ h
          rw [nodeAt_append, hinv]
          simp [nodeAt, hf]

/-- The instrumented resolver's trace really is the access path of the node
it returns. -/
theorem resolveEx_ok_nodeAt {root : VNode} {cwd_parts : List String} {path : String}
    {tr : List String} {n : VNode} (h : resolveEx root cwd_parts path = .ok (tr, n)) :
    nodeAt root tr = some n := by
  rw [resolveEx] at h
  by_cases h0 : path = "" ∨ path = "."
  · rw [if_pos h0] at h
    exact walkCwdEx_ok_trace (by rw [nodeAt]) h
  · rw [if_neg h0] at h
    by_cases habs : startsWithSlash path
    · rw [if_pos habs] at h
      exact resolveLoopEx_ok_trace (by rw [nodeAt]) h
    · rw [if_neg habs] at h
      exact resolveLoopEx_ok_trace (by rw [nodeAt]) h


/-! ### Frame lemmas for the in-place owner mutation -/

/-- The owner-independent observable fields of a node: name, kind, mode,
content, and the key set of its children dict. -/
def nodeShape (v : VNode) : String × String × String × List Nat × List String :=
  (v.name, v.type, v.mode, v.content, v.children.map Prod.fst)

theorem findPair_replaceChild_ne {k t : String} (hk : k ≠ t) (nv : VNode) :
    ∀ cs : List (String × VNode), findPair k (replaceChild cs t nv) = findPair k cs
  | [] => rfl
  | (k1, v1) :: rest => by
    rw [replaceChild]
    by_cases h1 : k1 = t
    · rw [if_pos h1, findPair, findPair, if_neg (fun h => hk (h.symm.trans h1)),
        if_neg (fun h => hk (h.symm.trans h1))]
    · rw [if_neg h1, findPair, findPair]
      by_cases h2 : k1 = k
      · rw [if_pos h2, if_pos h2]
      · rw [if_neg h2, if_neg h2, findPair_replaceChild_ne hk nv rest]

theorem findPair_replaceChild_eq {t : String} (nv : VNode) :
    ∀ {cs : List (String × VNode)} {v : VNode}, findPair t cs = some v →
    findPair t (replaceChild cs t nv) = some nv
  | [], v, h => by rw [findPair] at h; exact absurd h (by simp)
  | (k1, v1) :: rest, v, h => by
    rw [findPair] at h
    rw [replaceChild]
    by_cases h1 : k1 = t
    · rw [if_pos h1, findPair, if_pos h1]
    · rw [if_neg h1] at h
      rw [if_neg h1, findPair, if_neg h1]
      exact findPair_replaceChild_eq nv h

theorem replaceChild_map_fst (t : String) (nv : VNode) :
    ∀ cs : List (String × VNode),
    (replaceChild cs t nv).map Prod.fst = cs.map Prod.fst
  | [] => rfl
  | (k1, v1) :: rest => by
    rw [replaceChild]
    by_cases h1 : k1 = t
    · rw [if_pos h1]; rfl
    · rw [if_neg h1, List.map_cons, List.map_cons, replaceChild_map_fst t nv rest]

/-- The mutated node carries the new owner and is otherwise the old node. -/
theorem nodeAt_setOwnerAt_self {o : String} : ∀ {tr : List String} {root v : VNode},
    nodeAt root tr = some v →
    nodeAt (setOwnerAt o root tr) tr
      = some (VNode.mk v.name v.type o v.mode v.content v.children)
  | [], root, v, h => by
    cases root with
    | mk n t ow m c cs =>
      rw [nodeAt] at h
      injection h with h
      subst h
      rfl
  | k :: ks, root, v, h => by
    rw [nodeAt] at h
    cases hf : findChild root k with
    | none => rw [hf] at h; exact absurd h (by simp)
    | some child =>
      rw [hf] at h
      rw [setOwnerAt, hf, nodeAt]
      have hrc : findChild
          (VNode.mk root.name root.type root.owner root.mode root.content
            (replaceChild root.children k (setOwnerAt o child ks))) k
          = some (setOwnerAt o child ks) :=
        findPair_replaceChild_eq _ hf
      rw [hrc]
      exact nodeAt_setOwnerAt_self h

/-- Frame, shape part: `setOwnerAt` changes no node's name, kind, mode,
content or child keys anywhere in the tree. -/
theorem nodeAt_setOwnerAt_shape {o : String} : ∀ (tr : List String) (root : VNode)
    (ks : List String),
    (nodeAt (setOwnerAt o root tr) ks).map nodeShape = (nodeAt root ks).map nodeShape
  | [], root, ks => by
    cases root with
    | mk n t ow m c cs =>
      cases ks with
      | nil => rfl
      | cons j ks2 =>
        rw [setOwnerAt, nodeAt, nodeAt]
        simp only [findChild, VNode.children]
  | k :: tr2, root, ks => by
    rw [setOwnerAt]
    cases hf : findChild root k with
    | none => rfl
    | some child =>
      cases ks with
      | nil =>
        show some (nodeShape (VNode.mk root.name root.type root.owner root.mode
          root.content (replaceChild root.children k (setOwnerAt o child tr2))))
          = some (nodeShape root)
        rw [nodeShape, nodeShape]
        show some (root.name, root.type, root.mode, root.content,
          (replaceChild root.children k (setOwnerAt o child tr2)).map Prod.fst) = _
        rw [replaceChild_map_fst]
      | cons j ks2 =>
        rw [nodeAt, nodeAt]
        by_cases hj : j = k
        · subst hj
          have hrc : findChild
              (VNode.mk root.name root.type root.owner root.mode root.content
                (replaceChild root.children j (setOwnerAt o child tr2))) j
              = some (setOwnerAt o child tr2) :=
            findPair_replaceChild_eq _ hf
          rw [hrc, hf]
          exact nodeAt_setOwnerAt_shape tr2 child ks2
        · have hrc : findChild
              (VNode.mk root.name root.type root.owner root.mode root.content
                (replaceChild root.children k (setOwnerAt o child tr2))) j
              = findChild root j :=
            findPair_replaceChild_ne hj _ root.children
          rw [hrc]

/-- Frame, owner part: away from the mutated access path, `setOwnerAt`
changes no node's owner. -/
theorem nodeAt_setOwnerAt_owner {o : String} : ∀ (tr : List String) (root : VNode)
    (ks : List String), ks ≠ tr →
    (nodeAt (setOwnerAt o root tr) ks).map VNode.owner
      = (nodeAt root ks).map VNode.owner
  | [], root, ks, hne => by
    cases root with
    | mk n t ow m c cs =>
      cases ks with
      | nil => exact absurd rfl hne
      | cons j ks2 =>
        rw [setOwnerAt, nodeAt, nodeAt]
        simp only [findChild, VNode.children]
  | k :: tr2, root, ks, hne => by
    rw [setOwnerAt]
    cases hf : findChild root k with
    | none => rfl
    | some child =>
      cases ks with
      | nil => rfl
      | cons j ks2 =>
        rw [nodeAt, nodeAt]
        by_cases hj : j = k
        · subst hj
          have hks : ks2 ≠ tr2 := fun h => hne (by rw [h])
          have hrc : findChild
              (VNode.mk root.name root.type root.owner root.mode root.content
                (replaceChild root.children j (setOwnerAt o child tr2))) j
              = some (setOwnerAt o child tr2) :=
            findPair_replaceChild_eq _ hf
          rw [hrc, hf]
          exact nodeAt_setOwnerAt_owner tr2 child ks2 hks
        · have hrc : findChild
              (VNode.mk root.name root.type root.owner root.mode root.content
                (replaceChild root.children k (setOwnerAt o child tr2))) j
              = findChild root j :=
            findPair_replaceChild_ne hj _ root.children
          rw [hrc]


/-! ### Claim C8 -/

/-- Claim C8 (confirmed): `chown owner path` with both arguments resolves
the path and on success sets exactly the resolved node's `owner` (returned
as a functional update along the node's access path), returning empty
output; no node's name, kind, mode, content or child keys changes anywhere,
no other node's owner changes, and the working directory is untouched;
fewer than two arguments is a usage error and an unresolved path an error,
both leaving the tree untouched. -/
theorem C8_chown_semantics :
    (∀ (root : VNode) (cwd : List String),
        cmd_chown root cwd [] = (root, "chown: usage: chown owner path")) ∧
    (∀ (root : VNode) (cwd : List String) (x : String),
        cmd_chown root cwd [x] = (root, "chown: usage: chown owner path")) ∧
    (∀ (root : VNode) (cwd : List String) (o p : String) (rest : List String)
        (e : String),
        resolve_path root cwd p = .error e →
        cmd_chown root cwd (o :: p :: rest) = (root, "chown: " ++ e)) ∧
    (∀ (root : VNode) (cwd : List String) (o p : String) (rest tr : List String)
        (node : VNode),
        resolveEx root cwd p = .ok (tr, node) →
        cmd_chown root cwd (o :: p :: rest) = (setOwnerAt o root tr, "") ∧
        nodeAt root tr = some node ∧
        nodeAt (setOwnerAt o root tr) tr
          = some (VNode.mk node.name node.type o node.mode node.content node.children)) ∧
    (∀ (o : String) (root : VNode) (tr ks : List String),
        (nodeAt (setOwnerAt o root tr) ks).map nodeShape
          = (nodeAt root ks).map nodeShape) ∧
    (∀ (o : String) (root : VNode) (tr ks : List String), ks ≠ tr →
        (nodeAt (setOwnerAt o root tr) ks).map VNode.owner
          = (nodeAt root ks).map VNode.owner) ∧
    (∀ (st : EmuState) (args : List String),
        (run_command st "chown" args).state.cwd_parts = st.cwd_parts) := by
  refine ⟨fun root cwd => rfl, fun root cwd x => rfl, ?_, ?_,
    fun o root tr ks => nodeAt_setOwnerAt_shape tr root ks,
    fun o root tr ks h => nodeAt_setOwnerAt_owner tr root ks h, ?_⟩
  · intro root cwd o p rest e h
    rw [resolve_path] at h
    cases hr : resolveEx root cwd p with
    | error e2 =>
      rw [hr] at h
      simp only [Except.map] at h
      injection h with h
      subst h
      simp only [cmd_chown, hr]
    | ok r => rw [hr] at h; exact absurd h (by simp [Except.map])
  · intro root cwd o p rest tr node h
    have hn := resolveEx_ok_nodeAt h
    exact ⟨by simp only [cmd_chown, h], hn, nodeAt_setOwnerAt_self hn⟩
  · intro st args
    rw [run_command, dispatchBody,
      if_neg (by decide : ¬("chown" : String) = "exit"),
      if_neg (by decide : ¬("chown" : String) = "ls"),
      if_neg (by decide : ¬("chown" : String) = "cd"),
      if_neg (by decide : ¬("chown" : String) = "whoami"),
      if_neg (by decide : ¬("chown" : String) = "rev"),
      if_neg (by decide : ¬("chown" : String) = "head"),
      if_pos (rfl : ("chown" : String) = "chown")]
    rw [DispatchResult.state]
    rw [echo_and_log]
    split
    · rfl
    · rfl

/-- Witness for C8: `chown alice /a/c` on `Tdemo` updates exactly the file
at access path `["a", "c"]`, and the owner of `/f` is untouched. -/
theorem C8_witness :
    cmd_chown Tdemo [] ["alice", "/a/c"] = (setOwnerAt "alice" Tdemo ["a", "c"], "") ∧
    nodeAt (setOwnerAt "alice" Tdemo ["a", "c"]) ["a", "c"]
      = some (VNode.mk "c" "file" "alice" "rw" [97, 98, 99] []) ∧
    (nodeAt (setOwnerAt "alice" Tdemo ["a", "c"]) ["f"]).map VNode.owner
      = (nodeAt Tdemo ["f"]).map VNode.owner :=
  ⟨(C8_chown_semantics.2.2.2.1 Tdemo [] "alice" "/a/c" [] ["a", "c"]
      (mkFile "c" [97, 98, 99]) rfl).1,
   ((C8_chown_semantics.2.2.2.1 Tdemo [] "alice" "/a/c" [] ["a", "c"]
      (mkFile "c" [97, 98, 99]) rfl).2.2).trans (by rfl),
   C8_chown_semantics.2.2.2.2.2.1 "alice" Tdemo ["a", "c"] ["f"] (by decide)⟩


/-! ### Claim C9 -/

/-- Claim C9 (confirmed): dispatch is a total function into textual
results — a `DispatchResult` is produced for every command string and
argument list, all command-level failures being rendered inside the
returned text; the only command that terminates the process is `exit`, and
an unknown command name produces the non-fatal `Unknown command` output. -/
theorem C9_dispatch_total :
    (∀ (st : EmuState) (c : String) (args : List String),
        (∃ st2, run_command st c args = .exited st2) ↔ c = "exit") ∧
    (∀ (st : EmuState) (c : String) (args : List String), c ≠ "exit" →
        ∃ st2 out, run_command st c args = .output st2 out) ∧
    (∀ (st : EmuState) (c : String) (args : List String),
        c ∉ (["exit", "ls", "cd", "whoami", "rev", "head", "chown"] : List String) →
        run_command st c args
          = .output (echo_and_log st c args) ("Unknown command: " ++ c)) := by
  refine ⟨?_, ?_, ?_⟩
  · intro st c args
    rw [run_command, dispatchBody]
    split_ifs with h1 h2 h3 h4 h5 h6 h7
    · exact ⟨fun _ => h1, fun _ => ⟨echo_and_log st c args, rfl⟩⟩
    all_goals
      exact ⟨fun h => absurd h.choose_spec (by simp), fun hc => absurd hc h1⟩
  · intro st c args hc
    rw [run_command, dispatchBody]
    split_ifs with h1 h2 h3 h4 h5 h6 h7
    · exact absurd h1 hc
    all_goals exact ⟨_, _, rfl⟩
  · intro st c args hmem
    simp only [List.mem_cons, List.mem_singleton, List.not_mem_nil] at hmem
    push_neg at hmem
    rw [run_command, dispatchBody, if_neg hmem.1, if_neg hmem.2.1, if_neg hmem.2.2.1,
      if_neg hmem.2.2.2.1, if_neg hmem.2.2.2.2.1, if_neg hmem.2.2.2.2.2.1,
      if_neg hmem.2.2.2.2.2.2.1]

/-- Witness for C9: on `Tdemo`'s session, an unknown command returns the
non-fatal message, `exit` terminates, and `ls` produces an output. -/
theorem C9_witness :
    run_command stDemo "frobnicate" []
      = .output (echo_and_log stDemo "frobnicate" []) ("Unknown command: " ++ "frobnicate") ∧
    (∃ st2, run_command stDemo "exit" [] = .exited st2) ∧
    (∃ st2 out, run_command stDemo "ls" [] = .output st2 out) :=
  ⟨C9_dispatch_total.2.2 stDemo "frobnicate" [] (by decide),
   (C9_dispatch_total.1 stDemo "exit" []).mpr rfl,
   C9_dispatch_total.2.1 stDemo "ls" [] (by decide)⟩

/-! ### Claim C10 -/

theorem dispatchBody_log (st : EmuState) (c : String) (args : List String) :
    (dispatchBody st c args).state.log = st.log := by
  rw [dispatchBody]
  split_ifs <;> rfl

theorem echo_and_log_log (st : EmuState) (c : String) (args : List String) :
    (echo_and_log st c args).log =
      if st.logPath.isSome then st.log ++ [(st.user, c, args)] else st.log := by
  rw [echo_and_log]
  by_cases h : st.logPath.isSome
  · rw [if_pos h, if_pos h]
  · rw [if_neg h, if_neg h]

/-- Claim C10 (confirmed): every dispatch — known or unknown command, and
`exit` included — first appends exactly one audit event `(user, command,
args)` to the sink when one is configured and none otherwise, and the
dispatch body operates on the already-logged state and never touches the
log, so the event precedes any returned output or the termination. -/
theorem C10_audit_events :
    (∀ (st : EmuState) (c : String) (args : List String),
        run_command st c args = dispatchBody (echo_and_log st c args) c args) ∧
    (∀ (st : EmuState) (c : String) (args : List String),
        (dispatchBody st c args).state.log = st.log) ∧
    (∀ (st : EmuState) (c : String) (args : List String),
        (echo_and_log st c args).log =
          if st.logPath.isSome then st.log ++ [(st.user, c, args)] else st.log) ∧
    (∀ (st : EmuState) (c : String) (args : List String),
        (run_command st c args).state.log =
          if st.logPath.isSome then st.log ++ [(st.user, c, args)] else st.log) := by
  refine ⟨fun st c args => rfl, dispatchBody_log, echo_and_log_log, ?_⟩
  intro st c args
  rw [run_command, dispatchBody_log, echo_and_log_log]

end EmuSpec
